import Mathlib

/-!
Shallow embedding of `src/limiter-worklet.js` (class `LimiterProcessor`):
an AudioWorklet hard limiter with RMS detection, attack/release smoothing
and a lookahead delay buffer.  JS numbers are modelled as real numbers,
`Float32Array`s as `List ℝ`, and the mutable processor object as the
record `LimiterState` threaded explicitly.  The AudioWorklet global
`sampleRate` is passed as an explicit parameter where the source reads it
(constructor and message handler).
-/

noncomputable section

namespace LimiterWorklet

/-- The instance state of `LimiterProcessor` (constructor, lines 16-52).
`lookaheadBuffers`/`lookaheadIndices`/`lookaheadFilled` are per-channel
arrays (maxChannels = 2); all other fields are single shared values. -/
structure LimiterState where
  threshold : ℝ
  currentGain : ℝ
  attackTime : ℝ
  releaseTime : ℝ
  attackCoeff : ℝ
  releaseCoeff : ℝ
  rmsWindowSize : ℕ
  rmsBuffer : List ℝ
  rmsBufferIndex : ℕ
  rmsSum : ℝ
  lookaheadSize : ℕ
  lookaheadBuffers : List (List ℝ)
  lookaheadIndices : List ℕ
  lookaheadFilled : List ℕ

/-- The constructor (lines 16-52).  `Math.floor` on a nonnegative real is
`Int.floor` followed by `toNat`. -/
def initState (sampleRate : ℝ) : LimiterState :=
  { threshold := -20
    currentGain := 1
    attackTime := 0.015
    releaseTime := 0.08
    attackCoeff := 1 - Real.exp (-1 / (0.015 * sampleRate))
    releaseCoeff := 1 - Real.exp (-1 / (0.08 * sampleRate))
    rmsWindowSize := (⌊sampleRate * 0.005⌋).toNat
    rmsBuffer := List.replicate (⌊sampleRate * 0.005⌋).toNat 0
    rmsBufferIndex := 0
    rmsSum := 0
    lookaheadSize := (⌊sampleRate * 0.010⌋).toNat
    lookaheadBuffers := List.replicate 2 (List.replicate (⌊sampleRate * 0.010⌋).toNat 0)
    lookaheadIndices := List.replicate 2 0
    lookaheadFilled := List.replicate 2 0 }

/-- An `updateParameters` message received on the port (lines 55-79);
absent fields are `none`. -/
structure UpdateMessage where
  threshold : Option ℝ := none
  attackTime : Option ℝ := none
  releaseTime : Option ℝ := none
  rmsWindow : Option ℝ := none

/-- The `port.onmessage` handler for an `updateParameters` message
(lines 55-79).  Each supplied field is applied unconditionally; a changed
RMS window size resets the RMS buffer, index and running sum. -/
def onmessage (sampleRate : ℝ) (s : LimiterState) (m : UpdateMessage) : LimiterState :=
  let s1 := match m.threshold with
    | some v => { s with threshold := v }
    | none => s
  let s2 := match m.attackTime with
    | some v => { s1 with attackTime := v,
                          attackCoeff := 1 - Real.exp (-1 / (v * sampleRate)) }
    | none => s1
  let s3 := match m.releaseTime with
    | some v => { s2 with releaseTime := v,
                          releaseCoeff := 1 - Real.exp (-1 / (v * sampleRate)) }
    | none => s2
  match m.rmsWindow with
  | some v =>
      let newWindowSize := ⌊sampleRate * v⌋
      if newWindowSize ≠ (s3.rmsWindowSize : ℤ) then
        { s3 with rmsWindowSize := newWindowSize.toNat
                  rmsBuffer := List.replicate newWindowSize.toNat 0
                  rmsBufferIndex := 0
                  rmsSum := 0 }
      else s3
  | none => s3

/-- Result of `calculateRMS`: updated state and the returned RMS value. -/
structure RmsResult where
  state : LimiterState
  rms : ℝ

/-- `calculateRMS(sample)` (lines 86-99): evict the oldest squared sample
from the running sum, store the new sample, add its square, advance the
circular index, and return `sqrt(rmsSum / rmsWindowSize)`. -/
def calculateRMS (s : LimiterState) (sample : ℝ) : RmsResult :=
  let old := s.rmsBuffer.getD s.rmsBufferIndex 0
  let sum1 := s.rmsSum - old * old
  let buf := s.rmsBuffer.set s.rmsBufferIndex sample
  let sum2 := sum1 + sample * sample
  { state := { s with rmsBuffer := buf
                      rmsSum := sum2
                      rmsBufferIndex := (s.rmsBufferIndex + 1) % s.rmsWindowSize }
    rms := Real.sqrt (sum2 / (s.rmsWindowSize : ℝ)) }

/-- Decibel conversion (line 131): `rms > 0 ? 20 * log10(rms) : -100`. -/
def dbOfRms (rms : ℝ) : ℝ :=
  if rms > 0 then 20 * Real.logb 10 rms else -100

/-- Target gain computation (lines 134-140): below threshold the gain is
unity, above it `10 ^ ((threshold - db) / 20)` (real-exponent power). -/
def targetGainOf (threshold db : ℝ) : ℝ :=
  if db > threshold then (10 : ℝ) ^ ((threshold - db) / 20) else 1

/-- Result of one iteration of the per-sample loop: updated shared state,
the channel-local lookahead buffer, index, fill count, and the emitted
output sample. -/
structure SampleResult where
  state : LimiterState
  lb : List ℝ
  li : ℕ
  filled : ℕ
  out : ℝ

/-- One iteration of the inner loop of `process` (lines 123-168): write
the sample into the lookahead buffer, compute RMS / dB / target gain,
smooth `currentGain` with the attack or release coefficient, and emit
either the direct sample (buffer filling) or the delayed sample at
`(lookaheadIndex + 1) % lookaheadSize` (buffer full). -/
def processSample (s : LimiterState) (lb : List ℝ) (li filled : ℕ) (sample : ℝ) :
    SampleResult :=
  let lb1 := lb.set li sample
  let r := calculateRMS s sample
  let db := dbOfRms r.rms
  let targetGain := targetGainOf s.threshold db
  let g :=
    if targetGain < s.currentGain then
      s.currentGain + (targetGain - s.currentGain) * s.attackCoeff
    else
      s.currentGain + (targetGain - s.currentGain) * s.releaseCoeff
  let s2 := { r.state with currentGain := g }
  if filled < s.lookaheadSize then
    { state := s2, lb := lb1, li := (li + 1) % s.lookaheadSize,
      filled := filled + 1, out := sample * g }
  else
    { state := s2, lb := lb1, li := (li + 1) % s.lookaheadSize,
      filled := filled,
      out := lb1.getD ((li + 1) % s.lookaheadSize) 0 * g }

/-- Result of running the per-sample loop over a whole channel block. -/
structure ChannelRun where
  state : LimiterState
  lb : List ℝ
  li : ℕ
  filled : ℕ
  outs : List ℝ

/-- The inner sample loop of `process` for one channel (lines 123-169),
threading the shared state and the channel-local lookahead variables and
collecting the emitted output samples in order. -/
def processChannel (s : LimiterState) (lb : List ℝ) (li filled : ℕ) :
    List ℝ → ChannelRun
  | [] => { state := s, lb := lb, li := li, filled := filled, outs := [] }
  | x :: xs =>
      let r := processSample s lb li filled x
      let rest := processChannel r.state r.lb r.li r.filled xs
      { rest with outs := r.out :: rest.outs }

/-- The channel loop of `process` (lines 114-174): for each input channel
`ch`, load that channel's lookahead state, run the sample loop, overwrite
the output channel's samples, and store the channel state back.  Writes
past the end of a `Float32Array` are silently dropped, hence the
`take`/`drop` splice of the output channel. -/
def processChannels (s : LimiterState) (output : List (List ℝ)) (ch : ℕ) :
    List (List ℝ) → LimiterState × List (List ℝ)
  | [] => (s, output)
  | inputChannel :: rest =>
      let lb := s.lookaheadBuffers.getD ch []
      let li := s.lookaheadIndices.getD ch 0
      let f := s.lookaheadFilled.getD ch 0
      let r := processChannel s lb li f inputChannel
      let oc := output.getD ch []
      let oc2 := r.outs.take oc.length ++ oc.drop r.outs.length
      let s2 := { r.state with
        lookaheadBuffers := r.state.lookaheadBuffers.set ch r.lb
        lookaheadIndices := r.state.lookaheadIndices.set ch r.li
        lookaheadFilled := r.state.lookaheadFilled.set ch r.filled }
      processChannels s2 (output.set ch oc2) (ch + 1) rest

/-- Result of a `process` call: updated state, the outputs array after
the call, and the boolean return value. -/
structure ProcessResult where
  state : LimiterState
  outputs : List (List (List ℝ))
  keepAlive : Bool

/-- `process(inputs, outputs, parameters)` (lines 105-177): take the
first input, return immediately when it is absent or has no channels,
otherwise run the channel loop and return `true`. -/
def process (s : LimiterState) (inputs outputs : List (List (List ℝ))) :
    ProcessResult :=
  match inputs.head? with
  | none => { state := s, outputs := outputs, keepAlive := true }
  | some input =>
      if input.length = 0 then { state := s, outputs := outputs, keepAlive := true }
      else
        let output := outputs.getD 0 []
        let p := processChannels s output 0 input
        { state := p.1, outputs := outputs.set 0 p.2, keepAlive := true }

/-- Driver: feed a sequence of input blocks through repeated `process`
calls, each with a fresh zero output buffer of matching shape. -/
def runBlocks (s : LimiterState) (blocks : List (List (List ℝ))) : LimiterState :=
  blocks.foldl
    (fun st blk =>
      (process st [blk] [blk.map fun c => List.replicate c.length 0]).state) s

/-- Sum of squares of a sample list (for the RMS running-sum invariant). -/
def sumSquares (l : List ℝ) : ℝ := (l.map fun x => x * x).sum

/-- Driver: feed a sequence of samples through repeated `calculateRMS`
calls, keeping the updated state. -/
def runRMS (s : LimiterState) (xs : List ℝ) : LimiterState :=
  xs.foldl (fun st x => (calculateRMS st x).state) s

/-- The gain-related invariant: `currentGain` lies in `(0, 1]` and both
smoothing coefficients lie in `[0, 1]`. -/
def gainInv (s : LimiterState) : Prop :=
  0 < s.currentGain ∧ s.currentGain ≤ 1 ∧
  0 ≤ s.attackCoeff ∧ s.attackCoeff ≤ 1 ∧
  0 ≤ s.releaseCoeff ∧ s.releaseCoeff ≤ 1

/-- The stored smoothing coefficients agree with the formula
`1 - exp(-1 / (timeConstant * sampleRate))` applied to the stored time
constants. -/
def coeffConsistent (sampleRate : ℝ) (s : LimiterState) : Prop :=
  s.attackCoeff = 1 - Real.exp (-1 / (s.attackTime * sampleRate)) ∧
  s.releaseCoeff = 1 - Real.exp (-1 / (s.releaseTime * sampleRate))

/-- The RMS running-sum invariant: `rmsSum` is the sum of squares of the
RMS buffer, whose length is `rmsWindowSize`, with the index in range. -/
def rmsInv (s : LimiterState) : Prop :=
  s.rmsSum = sumSquares s.rmsBuffer ∧
  s.rmsBuffer.length = s.rmsWindowSize ∧
  s.rmsBufferIndex < s.rmsWindowSize

/-- The channel-local part of one `processSample` step: write the sample
at the current index, advance the index modulo `M`, and saturate the fill
count at `M`.  This part of the step does not read the shared state. -/
def localStep (M : ℕ) (l : List ℝ × ℕ × ℕ) (x : ℝ) : List ℝ × ℕ × ℕ :=
  (l.1.set l.2.1 x, (l.2.1 + 1) % M, if l.2.2 < M then l.2.2 + 1 else l.2.2)

/-- The channel-local state after a sequence of samples. -/
def localRun (M : ℕ) (l : List ℝ × ℕ × ℕ) (xs : List ℝ) : List ℝ × ℕ × ℕ :=
  xs.foldl (localStep M) l

/-- Continue a channel run with further samples, accumulating outputs. -/
def contChannel (c : ChannelRun) (xs : List ℝ) : ChannelRun :=
  let r := processChannel c.state c.lb c.li c.filled xs
  { r with outs := c.outs ++ r.outs }

/-- One iteration of the channel loop of `process` (lines 114-174):
the state after channel `ch` consumed block `a`, with the channel's
lookahead state stored back at index `ch`. -/
def chanStep (s : LimiterState) (ch : ℕ) (a : List ℝ) : LimiterState :=
  let r := processChannel s (s.lookaheadBuffers.getD ch [])
    (s.lookaheadIndices.getD ch 0) (s.lookaheadFilled.getD ch 0) a
  { r.state with
    lookaheadBuffers := r.state.lookaheadBuffers.set ch r.lb
    lookaheadIndices := r.state.lookaheadIndices.set ch r.li
    lookaheadFilled := r.state.lookaheadFilled.set ch r.filled }

/-- The output array after channel `ch` consumed block `a` (the splice
written into `output[ch]`). -/
def chanOut (s : LimiterState) (output : List (List ℝ)) (ch : ℕ) (a : List ℝ) :
    List (List ℝ) :=
  let r := processChannel s (s.lookaheadBuffers.getD ch [])
    (s.lookaheadIndices.getD ch 0) (s.lookaheadFilled.getD ch 0) a
  output.set ch (r.outs.take (output.getD ch []).length ++
    (output.getD ch []).drop r.outs.length)

/-! ### Concrete evaluation of the constructor at sampleRate 200 -/

lemma initState_200 :
    initState 200 =
      { threshold := -20, currentGain := 1, attackTime := 0.015, releaseTime := 0.08
        attackCoeff := 1 - Real.exp (-1 / 3), releaseCoeff := 1 - Real.exp (-1 / 16)
        rmsWindowSize := 1, rmsBuffer := [0], rmsBufferIndex := 0, rmsSum := 0
        lookaheadSize := 2, lookaheadBuffers := [[0, 0], [0, 0]]
        lookaheadIndices := [0, 0], lookaheadFilled := [0, 0] } := by
  have h1 : (⌊(200 : ℝ) * 0.005⌋).toNat = 1 := by norm_num
  have h2 : (⌊(200 : ℝ) * 0.010⌋).toNat = 2 := by
    norm_num
    rfl
  simp only [initState, h1, h2, List.replicate, LimiterState.mk.injEq]
  norm_num

/-! ### Claim C8 -/

/-- Claim C8: when the input is absent (no inputs at all) or has zero
channels, `process` returns `true`, leaves the output array untouched and
leaves the whole engine state exactly as it was. -/
theorem c8_empty_input_noop (s : LimiterState) (outputs : List (List (List ℝ))) :
    process s [] outputs = { state := s, outputs := outputs, keepAlive := true } ∧
    ∀ rest : List (List (List ℝ)),
      process s ([] :: rest) outputs =
        { state := s, outputs := outputs, keepAlive := true } := by
  exact ⟨rfl, fun rest => rfl⟩

/-! ### Claim C10 -/

/-- Claim C10: an `updateParameters` message whose `rmsWindow` field
yields the current window size in samples leaves the whole state (in
particular the RMS buffer, its index and the running sum) unchanged. -/
theorem c10_same_window_noop (sampleRate : ℝ) (s : LimiterState) (v : ℝ)
    (h : ⌊sampleRate * v⌋ = (s.rmsWindowSize : ℤ)) :
    onmessage sampleRate s { rmsWindow := some v } = s := by
  simp [onmessage, h]

/-- Witness for C10 at sampleRate 200 and the current 5 ms window. -/
theorem c10_witness :
    onmessage 200 (initState 200) { rmsWindow := some 0.005 } = initState 200 :=
  c10_same_window_noop 200 (initState 200) 0.005
    (by rw [initState_200]; norm_num)

/-! ### Claim C6 -/

/-- Claim C6 is false on the code: the message handler performs no
validation, so a non-positive attack time constant is accepted and
overwrites the previously valid configuration. -/
theorem c6_counterexample :
    (onmessage 200 (initState 200) { attackTime := some (-1) }).attackTime ≠
      (initState 200).attackTime := by
  rw [initState_200]
  norm_num [onmessage]

/-- Claim C6 (amended): the configuration entry point never raises and
performs no validation: every supplied parameter (threshold, attack,
release) is stored unconditionally — even non-positive time constants —
and the smoothing coefficients are recomputed from the stored values;
fields of the message that are absent leave their parameters unchanged. -/
theorem c6_amended (sampleRate t a r : ℝ) (s : LimiterState) :
    onmessage sampleRate s
        { threshold := some t, attackTime := some a, releaseTime := some r } =
      { s with threshold := t
               attackTime := a
               attackCoeff := 1 - Real.exp (-1 / (a * sampleRate))
               releaseTime := r
               releaseCoeff := 1 - Real.exp (-1 / (r * sampleRate)) } := by
  simp [onmessage]

/-! ### Claim C7 -/

/-- Claim C7 is false on the code in its second half: after processing
one sample (so channel 0's `filledCount` is 1), an `rmsWindow` update
that changes the window size (5 ms → 10 ms at sampleRate 200) leaves
`lookaheadFilled` at `[1, 0]` — it is not forced back to 0. -/
theorem c7_counterexample :
    (onmessage 200 (process (initState 200) [[[0]]] [[[0]]]).state
        { rmsWindow := some 0.01 }).lookaheadFilled.getD 0 0 ≠ 0 := by
  have hstate :
      ((process (initState 200) [[[0]]] [[[0]]]).state).lookaheadFilled = [1, 0] ∧
      ((process (initState 200) [[[0]]] [[[0]]]).state).rmsWindowSize = 1 := by
    rw [initState_200]
    constructor <;>
      simp [process, processChannels, processChannel, processSample, calculateRMS]
  simp only [onmessage]
  rw [if_pos (by rw [hstate.2]; norm_num)]
  simp [hstate.1]

/-- Claim C7 (amended): a configuration update changing only
`thresholdDb` stores the new threshold and leaves every other field (RMS
buffer, lookahead buffers, every channel's `filledCount`, coefficients)
unchanged; an `rmsWindow` update yielding a different window size resets
only the RMS buffer, its index and the running sum — every channel's
lookahead `filledCount` (and the lookahead buffers and indices) is left
unchanged, not forced back to 0. -/
theorem c7_amended (sampleRate t v : ℝ) (s : LimiterState)
    (hv : ⌊sampleRate * v⌋ ≠ (s.rmsWindowSize : ℤ)) :
    onmessage sampleRate s { threshold := some t } = { s with threshold := t } ∧
    onmessage sampleRate s { rmsWindow := some v } =
      { s with rmsWindowSize := (⌊sampleRate * v⌋).toNat
               rmsBuffer := List.replicate (⌊sampleRate * v⌋).toNat 0
               rmsBufferIndex := 0
               rmsSum := 0 } := by
  constructor
  · simp [onmessage]
  · simp [onmessage, hv]

/-- Witness for C7 (amended) at sampleRate 200: changing the window from
5 ms (1 sample) to 10 ms (2 samples). -/
theorem c7_witness :
    onmessage 200 (initState 200) { threshold := some (-10) } =
        { initState 200 with threshold := -10 } ∧
    onmessage 200 (initState 200) { rmsWindow := some 0.01 } =
      { initState 200 with
          rmsWindowSize := (⌊(200 : ℝ) * 0.01⌋).toNat
          rmsBuffer := List.replicate (⌊(200 : ℝ) * 0.01⌋).toNat 0
          rmsBufferIndex := 0
          rmsSum := 0 } :=
  c7_amended 200 (-10) 0.01 (initState 200) (by rw [initState_200]; norm_num)

/-! ### Claim C4 -/

lemma targetGainOf_pos (thr db : ℝ) : 0 < targetGainOf thr db := by
  unfold targetGainOf
  split
  · exact Real.rpow_pos_of_pos (by norm_num) _
  · norm_num

lemma targetGainOf_le_one (thr db : ℝ) : targetGainOf thr db ≤ 1 := by
  unfold targetGainOf
  split
  · rename_i h
    exact Real.rpow_le_one_of_one_le_of_nonpos (by norm_num)
      (by apply div_nonpos_of_nonpos_of_nonneg <;> linarith)
  · exact le_refl 1

/-- Claim C4: the decibel value is `20 * log10 rms` for `rms > 0` and the
fixed floor `-100` for `rms = 0`; the target gain is
`10 ^ ((threshold - db) / 20)`, strictly less than 1, when the decibel
value exceeds the threshold, and exactly 1 otherwise. -/
theorem c4_target_gain (thr rms : ℝ) (h : 0 ≤ rms) :
    (rms = 0 → dbOfRms rms = -100) ∧
    (0 < rms → dbOfRms rms = 20 * Real.logb 10 rms) ∧
    (thr < dbOfRms rms →
      targetGainOf thr (dbOfRms rms) = (10 : ℝ) ^ ((thr - dbOfRms rms) / 20) ∧
      targetGainOf thr (dbOfRms rms) < 1) ∧
    (dbOfRms rms ≤ thr → targetGainOf thr (dbOfRms rms) = 1) := by
  refine ⟨fun h0 => ?_, fun h0 => ?_, fun hgt => ⟨?_, ?_⟩, fun hle => ?_⟩
  · simp [dbOfRms, h0]
  · simp [dbOfRms, h0]
  · simp [targetGainOf, hgt]
  · simp only [targetGainOf, if_pos hgt]
    exact Real.rpow_lt_one_of_one_lt_of_neg (by norm_num)
      (by apply div_neg_of_neg_of_pos <;> linarith)
  · simp [targetGainOf, not_lt.mpr hle]

/-- Witness for C4 at threshold -20 dB and rms 1 (0 dB, above
threshold). -/
theorem c4_witness :
    (0 : ℝ) ≤ 1 ∧
    (((1 : ℝ) = 0 → dbOfRms 1 = -100) ∧
      ((0 : ℝ) < 1 → dbOfRms 1 = 20 * Real.logb 10 1) ∧
      ((-20 : ℝ) < dbOfRms 1 →
        targetGainOf (-20) (dbOfRms 1) = (10 : ℝ) ^ (((-20) - dbOfRms 1) / 20) ∧
        targetGainOf (-20) (dbOfRms 1) < 1) ∧
      (dbOfRms 1 ≤ -20 → targetGainOf (-20) (dbOfRms 1) = 1)) :=
  ⟨by norm_num, c4_target_gain (-20) 1 (by norm_num)⟩

/-! ### Claim C5 -/

/-- Claim C5: the per-sample gain update is
`currentGain += (targetGain - currentGain) * coeff`, using the attack
coefficient exactly when `targetGain < currentGain` and the release
coefficient otherwise; the constructor computes both coefficients as
`1 - exp(-1 / (timeConstant * sampleRate))` from the stored time
constants, and the message handler keeps them consistent with that
formula. -/
theorem c5_asymmetric_smoothing (sampleRate : ℝ) (s : LimiterState)
    (m : UpdateMessage) (h : coeffConsistent sampleRate s)
    (lb : List ℝ) (li f : ℕ) (x : ℝ) :
    coeffConsistent sampleRate (initState sampleRate) ∧
    coeffConsistent sampleRate (onmessage sampleRate s m) ∧
    (processSample s lb li f x).state.currentGain =
      (if targetGainOf s.threshold (dbOfRms (calculateRMS s x).rms) <
          s.currentGain then
        s.currentGain +
          (targetGainOf s.threshold (dbOfRms (calculateRMS s x).rms) -
            s.currentGain) * s.attackCoeff
      else
        s.currentGain +
          (targetGainOf s.threshold (dbOfRms (calculateRMS s x).rms) -
            s.currentGain) * s.releaseCoeff) := by
  refine ⟨⟨rfl, rfl⟩, ?_, ?_⟩
  · obtain ⟨ha, hr⟩ := h
    obtain ⟨mt, ma, mr, mw⟩ := m
    cases mt <;> cases ma <;> cases mr <;> cases mw <;>
      simp only [onmessage, coeffConsistent] <;>
      try split
    all_goals simp_all [coeffConsistent]
  · simp only [processSample, calculateRMS]
    split <;> rfl

/-- Witness for C5 at sampleRate 200 with the freshly constructed
state and an empty message. -/
theorem c5_witness :
    coeffConsistent 200 (initState 200) ∧
    (coeffConsistent 200 (initState 200) ∧
      coeffConsistent 200 (onmessage 200 (initState 200) {}) ∧
      (processSample (initState 200) [] 0 0 0).state.currentGain =
        (if targetGainOf (initState 200).threshold
            (dbOfRms (calculateRMS (initState 200) 0).rms) <
            (initState 200).currentGain then
          (initState 200).currentGain +
            (targetGainOf (initState 200).threshold
              (dbOfRms (calculateRMS (initState 200) 0).rms) -
              (initState 200).currentGain) * (initState 200).attackCoeff
        else
          (initState 200).currentGain +
            (targetGainOf (initState 200).threshold
              (dbOfRms (calculateRMS (initState 200) 0).rms) -
              (initState 200).currentGain) * (initState 200).releaseCoeff)) :=
  ⟨⟨rfl, rfl⟩, c5_asymmetric_smoothing 200 (initState 200) {} ⟨rfl, rfl⟩ [] 0 0 0⟩

/-! ### Claim C3 -/

lemma smooth_mem {g t c : ℝ} (hg0 : 0 < g) (hg1 : g ≤ 1) (ht0 : 0 < t)
    (ht1 : t ≤ 1) (hc0 : 0 ≤ c) (hc1 : c ≤ 1) :
    0 < g + (t - g) * c ∧ g + (t - g) * c ≤ 1 := by
  constructor
  · rcases eq_or_lt_of_le hc0 with h | h
    · rw [← h]; simpa using hg0
    · nlinarith [mul_pos ht0 h, mul_nonneg (sub_nonneg.mpr hc1) hg0.le]
  · nlinarith [mul_nonneg (sub_nonneg.mpr ht1) hc0,
      mul_nonneg (sub_nonneg.mpr hg1) (sub_nonneg.mpr hc1)]

lemma processSample_state_eq (s : LimiterState) (lb : List ℝ) (li f : ℕ) (x : ℝ) :
    (processSample s lb li f x).state =
      { (calculateRMS s x).state with currentGain :=
          if (targetGainOf s.threshold (dbOfRms (calculateRMS s x).rms) <
              s.currentGain) then
            s.currentGain +
              (targetGainOf s.threshold (dbOfRms (calculateRMS s x).rms) -
                s.currentGain) * s.attackCoeff
          else
            s.currentGain +
              (targetGainOf s.threshold (dbOfRms (calculateRMS s x).rms) -
                s.currentGain) * s.releaseCoeff } := by
  simp only [processSample]
  split <;> rfl

lemma processSample_currentGain (s : LimiterState) (lb : List ℝ) (li f : ℕ)
    (x : ℝ) :
    (processSample s lb li f x).state.currentGain =
      if targetGainOf s.threshold (dbOfRms (calculateRMS s x).rms) <
          s.currentGain then
        s.currentGain +
          (targetGainOf s.threshold (dbOfRms (calculateRMS s x).rms) -
            s.currentGain) * s.attackCoeff
      else
        s.currentGain +
          (targetGainOf s.threshold (dbOfRms (calculateRMS s x).rms) -
            s.currentGain) * s.releaseCoeff := by
  simp only [processSample]
  split <;> rfl

lemma processSample_attackCoeff (s : LimiterState) (lb : List ℝ) (li f : ℕ)
    (x : ℝ) : (processSample s lb li f x).state.attackCoeff = s.attackCoeff := by
  simp only [processSample]
  split <;> rfl

lemma processSample_releaseCoeff (s : LimiterState) (lb : List ℝ) (li f : ℕ)
    (x : ℝ) : (processSample s lb li f x).state.releaseCoeff = s.releaseCoeff := by
  simp only [processSample]
  split <;> rfl

lemma gainInv_processSample (s : LimiterState) (lb : List ℝ) (li f : ℕ) (x : ℝ)
    (h : gainInv s) : gainInv (processSample s lb li f x).state := by
  obtain ⟨hg0, hg1, ha0, ha1, hr0, hr1⟩ := h
  have ht0 := targetGainOf_pos s.threshold (dbOfRms (calculateRMS s x).rms)
  have ht1 := targetGainOf_le_one s.threshold (dbOfRms (calculateRMS s x).rms)
  unfold gainInv
  rw [processSample_currentGain, processSample_attackCoeff,
    processSample_releaseCoeff]
  refine ⟨?_, ?_, ha0, ha1, hr0, hr1⟩
  · split
    · exact (smooth_mem hg0 hg1 ht0 ht1 ha0 ha1).1
    · exact (smooth_mem hg0 hg1 ht0 ht1 hr0 hr1).1
  · split
    · exact (smooth_mem hg0 hg1 ht0 ht1 ha0 ha1).2
    · exact (smooth_mem hg0 hg1 ht0 ht1 hr0 hr1).2

lemma processChannel_cons_state (s : LimiterState) (lb : List ℝ) (li f : ℕ)
    (x : ℝ) (xs : List ℝ) :
    (processChannel s lb li f (x :: xs)).state =
      (processChannel (processSample s lb li f x).state
        (processSample s lb li f x).lb (processSample s lb li f x).li
        (processSample s lb li f x).filled xs).state := rfl

lemma gainInv_processChannel (s : LimiterState) (lb : List ℝ) (li f : ℕ)
    (xs : List ℝ) (h : gainInv s) : gainInv (processChannel s lb li f xs).state := by
  induction xs generalizing s lb li f with
  | nil => exact h
  | cons x xs ih =>
    rw [processChannel_cons_state]
    exact ih _ _ _ _ (gainInv_processSample s lb li f x h)

lemma gainInv_processChannels (s : LimiterState) (output : List (List ℝ))
    (ch : ℕ) (chans : List (List ℝ)) (h : gainInv s) :
    gainInv (processChannels s output ch chans).1 := by
  induction chans generalizing s output ch with
  | nil => exact h
  | cons c rest ih =>
    exact ih _ _ _ (gainInv_processChannel s _ _ _ c h)

lemma gainInv_process (s : LimiterState) (inputs outputs : List (List (List ℝ)))
    (h : gainInv s) : gainInv (process s inputs outputs).state := by
  cases inputs with
  | nil => exact h
  | cons input rest =>
    show gainInv (process s (input :: rest) outputs).state
    simp only [process, List.head?]
    split
    · exact h
    · exact gainInv_processChannels s _ _ input h

lemma gainInv_runBlocks (s : LimiterState) (blocks : List (List (List ℝ)))
    (h : gainInv s) : gainInv (runBlocks s blocks) := by
  induction blocks generalizing s with
  | nil => exact h
  | cons b rest ih =>
    exact ih _ (gainInv_process s _ _ h)

lemma gainInv_initState (sampleRate : ℝ) (hs : 0 < sampleRate) :
    gainInv (initState sampleRate) := by
  have h15 : (0:ℝ) < 0.015 * sampleRate := by positivity
  have h8 : (0:ℝ) < 0.08 * sampleRate := by positivity
  have e1 : Real.exp (-1 / (0.015 * sampleRate)) ≤ 1 := by
    rw [Real.exp_le_one_iff, neg_div]
    have := le_of_lt (div_pos one_pos h15)
    linarith
  have e2 : Real.exp (-1 / (0.08 * sampleRate)) ≤ 1 := by
    rw [Real.exp_le_one_iff, neg_div]
    have := le_of_lt (div_pos one_pos h8)
    linarith
  refine ⟨by norm_num [initState], by norm_num [initState], ?_, ?_, ?_, ?_⟩ <;>
    simp only [initState]
  · linarith
  · linarith [(Real.exp_pos (-1 / (0.015 * sampleRate)))]
  · linarith
  · linarith [(Real.exp_pos (-1 / (0.08 * sampleRate)))]

/-- Claim C3: starting from the initial state (gain 1), after processing
any sequence of input blocks the smoothed `currentGain` remains strictly
positive and at most 1 — the limiter only ever attenuates. -/
theorem c3_no_boost (sampleRate : ℝ) (hs : 0 < sampleRate)
    (blocks : List (List (List ℝ))) :
    0 < (runBlocks (initState sampleRate) blocks).currentGain ∧
    (runBlocks (initState sampleRate) blocks).currentGain ≤ 1 := by
  have h := gainInv_runBlocks (initState sampleRate) blocks
    (gainInv_initState sampleRate hs)
  exact ⟨h.1, h.2.1⟩

/-- Witness for C3 at sampleRate 48000 with one one-channel block. -/
theorem c3_witness :
    (0:ℝ) < 48000 ∧
    (0 < (runBlocks (initState 48000) [[[1]]]).currentGain ∧
      (runBlocks (initState 48000) [[[1]]]).currentGain ≤ 1) :=
  ⟨by norm_num, c3_no_boost 48000 (by norm_num) [[[1]]]⟩

/-! ### Channel-local lookahead machinery (for C1 and C2) -/

lemma getD_set_self {α : Type} (l : List α) (i : ℕ) (x d : α) (h : i < l.length) :
    (l.set i x).getD i d = x := by
  induction l generalizing i with
  | nil => simp at h
  | cons a t ih =>
    cases i with
    | zero => rfl
    | succ n => exact ih n (by simpa using h)

lemma getD_set_ne {α : Type} (l : List α) (i j : ℕ) (x d : α) (h : i ≠ j) :
    (l.set i x).getD j d = l.getD j d := by
  induction l generalizing i j with
  | nil => rfl
  | cons a t ih =>
    cases i with
    | zero =>
      cases j with
      | zero => exact absurd rfl h
      | succ m => rfl
    | succ n =>
      cases j with
      | zero => rfl
      | succ m => exact ih n m (by omega)

lemma getD_replicate_zero (n j : ℕ) : (List.replicate n (0 : ℝ)).getD j 0 = 0 := by
  induction n generalizing j with
  | zero => rfl
  | succ k ih =>
    cases j with
    | zero => rfl
    | succ m => exact ih m

lemma take_succ_getD (xs : List ℝ) (i : ℕ) (h : i < xs.length) :
    xs.take (i + 1) = xs.take i ++ [xs.getD i 0] := by
  rw [List.take_succ, List.getElem?_eq_getElem h, List.getD_eq_getElem xs 0 h]
  rfl

lemma processSample_lb (s : LimiterState) (lb : List ℝ) (li f : ℕ) (x : ℝ) :
    (processSample s lb li f x).lb = lb.set li x := by
  simp only [processSample]
  split <;> rfl

lemma processSample_li (s : LimiterState) (lb : List ℝ) (li f : ℕ) (x : ℝ) :
    (processSample s lb li f x).li = (li + 1) % s.lookaheadSize := by
  simp only [processSample]
  split <;> rfl

lemma processSample_filled (s : LimiterState) (lb : List ℝ) (li f : ℕ) (x : ℝ) :
    (processSample s lb li f x).filled =
      if f < s.lookaheadSize then f + 1 else f := by
  simp only [processSample]
  split <;> simp_all

lemma processSample_lookaheadSize (s : LimiterState) (lb : List ℝ) (li f : ℕ)
    (x : ℝ) : (processSample s lb li f x).state.lookaheadSize = s.lookaheadSize := by
  simp only [processSample]
  split <;> rfl

lemma processSample_out_full (s : LimiterState) (lb : List ℝ) (li f : ℕ) (x : ℝ)
    (h : ¬ f < s.lookaheadSize) :
    (processSample s lb li f x).out =
      (lb.set li x).getD ((li + 1) % s.lookaheadSize) 0 *
        (processSample s lb li f x).state.currentGain := by
  simp only [processSample, if_neg h]

lemma processChannel_cons_lb (s : LimiterState) (lb : List ℝ) (li f : ℕ)
    (x : ℝ) (xs : List ℝ) :
    (processChannel s lb li f (x :: xs)).lb =
      (processChannel (processSample s lb li f x).state
        (processSample s lb li f x).lb (processSample s lb li f x).li
        (processSample s lb li f x).filled xs).lb := rfl

lemma processChannel_cons_li (s : LimiterState) (lb : List ℝ) (li f : ℕ)
    (x : ℝ) (xs : List ℝ) :
    (processChannel s lb li f (x :: xs)).li =
      (processChannel (processSample s lb li f x).state
        (processSample s lb li f x).lb (processSample s lb li f x).li
        (processSample s lb li f x).filled xs).li := rfl

lemma processChannel_cons_filled (s : LimiterState) (lb : List ℝ) (li f : ℕ)
    (x : ℝ) (xs : List ℝ) :
    (processChannel s lb li f (x :: xs)).filled =
      (processChannel (processSample s lb li f x).state
        (processSample s lb li f x).lb (processSample s lb li f x).li
        (processSample s lb li f x).filled xs).filled := rfl

lemma processChannel_cons_outs (s : LimiterState) (lb : List ℝ) (li f : ℕ)
    (x : ℝ) (xs : List ℝ) :
    (processChannel s lb li f (x :: xs)).outs =
      (processSample s lb li f x).out ::
        (processChannel (processSample s lb li f x).state
          (processSample s lb li f x).lb (processSample s lb li f x).li
          (processSample s lb li f x).filled xs).outs := rfl

lemma processChannel_lookaheadSize (s : LimiterState) (lb : List ℝ) (li f : ℕ)
    (xs : List ℝ) :
    (processChannel s lb li f xs).state.lookaheadSize = s.lookaheadSize := by
  induction xs generalizing s lb li f with
  | nil => rfl
  | cons x xs ih =>
    rw [processChannel_cons_state, ih, processSample_lookaheadSize]

lemma processChannel_outs_length (s : LimiterState) (lb : List ℝ) (li f : ℕ)
    (xs : List ℝ) : (processChannel s lb li f xs).outs.length = xs.length := by
  induction xs generalizing s lb li f with
  | nil => rfl
  | cons x xs ih =>
    rw [processChannel_cons_outs, List.length_cons, ih, List.length_cons]

lemma processSample_locals (s : LimiterState) (lb : List ℝ) (li f : ℕ) (x : ℝ) :
    ((processSample s lb li f x).lb, (processSample s lb li f x).li,
      (processSample s lb li f x).filled) = localStep s.lookaheadSize (lb, li, f) x := by
  rw [processSample_lb, processSample_li, processSample_filled]
  rfl

lemma processChannel_locals (s : LimiterState) (lb : List ℝ) (li f : ℕ)
    (xs : List ℝ) :
    ((processChannel s lb li f xs).lb, (processChannel s lb li f xs).li,
      (processChannel s lb li f xs).filled) =
      localRun s.lookaheadSize (lb, li, f) xs := by
  induction xs generalizing s lb li f with
  | nil => rfl
  | cons x xs ih =>
    rw [processChannel_cons_lb, processChannel_cons_li, processChannel_cons_filled]
    rw [ih, processSample_lookaheadSize, processSample_locals]
    rfl

lemma processChannel_append (s : LimiterState) (lb : List ℝ) (li f : ℕ)
    (ys zs : List ℝ) :
    processChannel s lb li f (ys ++ zs) =
      contChannel (processChannel s lb li f ys) zs := by
  induction ys generalizing s lb li f with
  | nil =>
    show processChannel s lb li f zs = contChannel { state := s, lb := lb, li := li, filled := f, outs := [] } zs
    simp only [contChannel, List.nil_append]
  | cons y ys ih =>
    show processChannel s lb li f (y :: (ys ++ zs)) = _
    simp only [processChannel, contChannel] at ih ⊢
    rw [ih]
    simp [List.cons_append]

lemma processChannel_take_succ_state (s : LimiterState) (lb : List ℝ)
    (li f : ℕ) (xs : List ℝ) (i : ℕ) (h : i < xs.length) :
    (processChannel s lb li f (xs.take (i + 1))).state =
      (processSample (processChannel s lb li f (xs.take i)).state
        (processChannel s lb li f (xs.take i)).lb
        (processChannel s lb li f (xs.take i)).li
        (processChannel s lb li f (xs.take i)).filled (xs.getD i 0)).state := by
  rw [take_succ_getD xs i h, processChannel_append]
  rfl

lemma processChannel_getD_out (s : LimiterState) (lb : List ℝ) (li f : ℕ)
    (xs : List ℝ) (i : ℕ) (h : i < xs.length) :
    (processChannel s lb li f xs).outs.getD i 0 =
      (processSample (processChannel s lb li f (xs.take i)).state
        (processChannel s lb li f (xs.take i)).lb
        (processChannel s lb li f (xs.take i)).li
        (processChannel s lb li f (xs.take i)).filled (xs.getD i 0)).out := by
  have hsplit : xs = xs.take i ++ (xs.getD i 0 :: xs.drop (i + 1)) := by
    conv_lhs => rw [← List.take_append_drop i xs]
    rw [List.drop_eq_getElem_cons h, List.getD_eq_getElem xs 0 h]
  conv_lhs => rw [hsplit, processChannel_append]
  simp only [contChannel]
  rw [List.getD_append_right _ _ _ _ (by rw [processChannel_outs_length]; simp [List.length_take])]
  rw [processChannel_outs_length]
  have hlen : (xs.take i).length = i := by simp [List.length_take]; omega
  rw [hlen, Nat.sub_self]
  rw [processChannel_cons_outs]
  rfl

lemma processSample_out_filling (s : LimiterState) (lb : List ℝ) (li f : ℕ)
    (x : ℝ) (h : f < s.lookaheadSize) :
    (processSample s lb li f x).out =
      x * (processSample s lb li f x).state.currentGain := by
  simp only [processSample, if_pos h]

lemma calculateRMS_rms (s : LimiterState) (x : ℝ) :
    (calculateRMS s x).rms =
      Real.sqrt ((s.rmsSum -
        s.rmsBuffer.getD s.rmsBufferIndex 0 * s.rmsBuffer.getD s.rmsBufferIndex 0 +
        x * x) / (s.rmsWindowSize : ℝ)) := rfl

lemma processSample_currentGain_attack (s : LimiterState) (lb : List ℝ)
    (li f : ℕ) (x : ℝ)
    (h : targetGainOf s.threshold (dbOfRms (calculateRMS s x).rms) < s.currentGain) :
    (processSample s lb li f x).state.currentGain =
      s.currentGain +
        (targetGainOf s.threshold (dbOfRms (calculateRMS s x).rms) -
          s.currentGain) * s.attackCoeff := by
  rw [processSample_currentGain, if_pos h]

lemma processSample_currentGain_release (s : LimiterState) (lb : List ℝ)
    (li f : ℕ) (x : ℝ)
    (h : ¬ targetGainOf s.threshold (dbOfRms (calculateRMS s x).rms) < s.currentGain) :
    (processSample s lb li f x).state.currentGain =
      s.currentGain +
        (targetGainOf s.threshold (dbOfRms (calculateRMS s x).rms) -
          s.currentGain) * s.releaseCoeff := by
  rw [processSample_currentGain, if_neg h]

lemma processSample_threshold (s : LimiterState) (lb : List ℝ) (li f : ℕ)
    (x : ℝ) : (processSample s lb li f x).state.threshold = s.threshold := by
  simp only [processSample]
  split <;> rfl

lemma processSample_rmsWindowSize (s : LimiterState) (lb : List ℝ) (li f : ℕ)
    (x : ℝ) : (processSample s lb li f x).state.rmsWindowSize = s.rmsWindowSize := by
  simp only [processSample]
  split <;> rfl

lemma processSample_rmsBuffer (s : LimiterState) (lb : List ℝ) (li f : ℕ)
    (x : ℝ) : (processSample s lb li f x).state.rmsBuffer =
      s.rmsBuffer.set s.rmsBufferIndex x := by
  simp only [processSample]
  split <;> rfl

lemma processSample_rmsBufferIndex (s : LimiterState) (lb : List ℝ) (li f : ℕ)
    (x : ℝ) : (processSample s lb li f x).state.rmsBufferIndex =
      (s.rmsBufferIndex + 1) % s.rmsWindowSize := by
  simp only [processSample]
  split <;> rfl

lemma processSample_rmsSum (s : LimiterState) (lb : List ℝ) (li f : ℕ)
    (x : ℝ) : (processSample s lb li f x).state.rmsSum =
      s.rmsSum -
        s.rmsBuffer.getD s.rmsBufferIndex 0 * s.rmsBuffer.getD s.rmsBufferIndex 0 +
        x * x := by
  simp only [processSample]
  split <;> rfl

lemma processSample_lookaheadBuffers (s : LimiterState) (lb : List ℝ) (li f : ℕ)
    (x : ℝ) :
    (processSample s lb li f x).state.lookaheadBuffers = s.lookaheadBuffers := by
  simp only [processSample]
  split <;> rfl

lemma processSample_lookaheadIndices (s : LimiterState) (lb : List ℝ) (li f : ℕ)
    (x : ℝ) :
    (processSample s lb li f x).state.lookaheadIndices = s.lookaheadIndices := by
  simp only [processSample]
  split <;> rfl

lemma processSample_lookaheadFilled (s : LimiterState) (lb : List ℝ) (li f : ℕ)
    (x : ℝ) :
    (processSample s lb li f x).state.lookaheadFilled = s.lookaheadFilled := by
  simp only [processSample]
  split <;> rfl

lemma processSample_out (s : LimiterState) (lb : List ℝ) (li f : ℕ) (x : ℝ) :
    (processSample s lb li f x).out =
      (if f < s.lookaheadSize then x
       else (lb.set li x).getD ((li + 1) % s.lookaheadSize) 0) *
        (processSample s lb li f x).state.currentGain := by
  by_cases h : f < s.lookaheadSize
  · rw [processSample_out_filling s lb li f x h, if_pos h]
  · rw [processSample_out_full s lb li f x h, if_neg h]

/-! ### Concrete decibel and RMS facts -/

lemma sqrt_inv_hundred : Real.sqrt (1 / 100 : ℝ) = 1 / 10 := by
  rw [show (1 / 100 : ℝ) = (1 / 10) ^ 2 by norm_num]
  exact Real.sqrt_sq (by norm_num)

lemma sqrt_inv_four : Real.sqrt (1 / 4 : ℝ) = 1 / 2 := by
  rw [show (1 / 4 : ℝ) = (1 / 2) ^ 2 by norm_num]
  exact Real.sqrt_sq (by norm_num)

lemma sqrt_hundred : Real.sqrt (100 : ℝ) = 10 := by
  rw [show (100 : ℝ) = 10 ^ 2 by norm_num]
  exact Real.sqrt_sq (by norm_num)

lemma logb_ten_ten : Real.logb 10 (10 : ℝ) = 1 :=
  Real.logb_self_eq_one (by norm_num)

lemma logb_ten_tenth : Real.logb 10 (1 / 10 : ℝ) = -1 := by
  rw [show (1 / 10 : ℝ) = (10 : ℝ)⁻¹ by norm_num, Real.logb_inv,
    Real.logb_self_eq_one (by norm_num)]

lemma dbOfRms_tenth : dbOfRms (1 / 10 : ℝ) = -20 := by
  rw [dbOfRms, if_pos (by norm_num), logb_ten_tenth]
  norm_num

lemma dbOfRms_zero : dbOfRms (0 : ℝ) = -100 := by
  rw [dbOfRms, if_neg (by norm_num)]

lemma dbOfRms_half_gt : (-20 : ℝ) < dbOfRms (1 / 2 : ℝ) := by
  rw [dbOfRms, if_pos (by norm_num)]
  have h : (-1 : ℝ) < Real.logb 10 (1 / 2 : ℝ) := by
    rw [Real.lt_logb_iff_rpow_lt (by norm_num) (by norm_num), Real.rpow_neg_one]
    norm_num
  linarith

/-! ### localRun characterization -/

lemma localRun_append (M : ℕ) (l : List ℝ × ℕ × ℕ) (xs ys : List ℝ) :
    localRun M l (xs ++ ys) = localRun M (localRun M l xs) ys := by
  simp [localRun, List.foldl_append]

lemma localRun_buf_length (M : ℕ) (l : List ℝ × ℕ × ℕ) (xs : List ℝ) :
    (localRun M l xs).1.length = l.1.length := by
  induction xs generalizing l with
  | nil => rfl
  | cons x xs ih =>
    show (localRun M (localStep M l x) xs).1.length = _
    rw [ih]
    simp [localStep]

lemma localRun_idx_fill (M : ℕ) (lb : List ℝ) (n : ℕ) (xs : List ℝ) :
    (localRun M (lb, n % M, min n M) xs).2.1 = (n + xs.length) % M ∧
    (localRun M (lb, n % M, min n M) xs).2.2 = min (n + xs.length) M := by
  induction xs generalizing lb n with
  | nil => simp [localRun]
  | cons x xs ih =>
    show (localRun M (localStep M (lb, n % M, min n M) x) xs).2.1 = _ ∧
      (localRun M (localStep M (lb, n % M, min n M) x) xs).2.2 = _
    have hstep : localStep M (lb, n % M, min n M) x =
        (lb.set (n % M) x, (n + 1) % M, min (n + 1) M) := by
      simp only [localStep, Nat.mod_add_mod]
      rcases lt_or_ge n M with hnM | hnM
      · rw [min_eq_left hnM.le, if_pos hnM, min_eq_left (by omega)]
      · rw [min_eq_right hnM, if_neg (lt_irrefl M), min_eq_right (by omega)]
    rw [hstep]
    have := ih (lb.set (n % M) x) (n + 1)
    have hc : n + (x :: xs).length = n + 1 + xs.length := by
      simp [List.length_cons]
      omega
    constructor
    · rw [this.1, hc]
    · rw [this.2, hc]

lemma localRun_fresh_idx (M : ℕ) (lb : List ℝ) (xs : List ℝ) :
    (localRun M (lb, 0, 0) xs).2.1 = xs.length % M ∧
    (localRun M (lb, 0, 0) xs).2.2 = min xs.length M := by
  have := localRun_idx_fill M lb 0 xs
  simpa using this

lemma localRun_take_fill (M : ℕ) (xs : List ℝ) (i : ℕ) (hiM : i ≤ M)
    (hix : i ≤ xs.length) (j : ℕ) (hj : j < M) :
    (localRun M (List.replicate M 0, 0, 0) (xs.take i)).1.getD j 0 =
      if j < i then xs.getD j 0 else 0 := by
  induction i with
  | zero =>
    simp only [List.take_zero]
    show (List.replicate M (0:ℝ)).getD j 0 = _
    rw [getD_replicate_zero]
    simp
  | succ k ih =>
    have hk : k < xs.length := by omega
    rw [take_succ_getD xs k hk, localRun_append]
    show (localStep M (localRun M (List.replicate M 0, 0, 0) (xs.take k))
      (xs.getD k 0)).1.getD j 0 = _
    have hidx : (localRun M (List.replicate M 0, 0, 0) (xs.take k)).2.1 = k := by
      rw [(localRun_fresh_idx M _ _).1]
      rw [List.length_take, min_eq_left (by omega), Nat.mod_eq_of_lt (by omega)]
    have hblen : (localRun M (List.replicate M 0, 0, 0) (xs.take k)).1.length = M := by
      rw [localRun_buf_length]
      exact List.length_replicate M 0
    simp only [localStep, hidx]
    by_cases hjk : j = k
    · subst hjk
      rw [getD_set_self _ _ _ _ (by omega)]
      rw [if_pos (by omega)]
    · rw [getD_set_ne _ _ _ _ _ (fun hkj => hjk hkj.symm)]
      rw [ih (by omega) (by omega)]
      by_cases hjl : j < k
      · rw [if_pos hjl, if_pos (by omega)]
      · rw [if_neg hjl, if_neg (by omega)]

lemma localRun_take_steady (M : ℕ) (hM : 0 < M) (xs : List ℝ) (i : ℕ)
    (hMi : M ≤ i) (hix : i ≤ xs.length) (k : ℕ) (hk : k < M) :
    (localRun M (List.replicate M 0, 0, 0) (xs.take i)).1.getD ((i - M + k) % M) 0 =
      xs.getD (i - M + k) 0 := by
  induction i, hMi using Nat.le_induction generalizing k with
  | base =>
    rw [Nat.sub_self, Nat.zero_add, Nat.mod_eq_of_lt hk]
    rw [localRun_take_fill M xs M le_rfl hix k hk]
    rw [if_pos hk]
  | succ i hMi ih =>
    have hi : i < xs.length := by omega
    rw [take_succ_getD xs i hi, localRun_append]
    show (localStep M (localRun M (List.replicate M 0, 0, 0) (xs.take i))
      (xs.getD i 0)).1.getD ((i + 1 - M + k) % M) 0 = _
    have hidx : (localRun M (List.replicate M 0, 0, 0) (xs.take i)).2.1 = i % M := by
      rw [(localRun_fresh_idx M _ _).1]
      rw [List.length_take, min_eq_left (by omega)]
    have hblen : (localRun M (List.replicate M 0, 0, 0) (xs.take i)).1.length = M := by
      rw [localRun_buf_length]
      exact List.length_replicate M 0
    simp only [localStep, hidx]
    by_cases hk1 : k = M - 1
    · subst hk1
      have hslot : (i + 1 - M + (M - 1)) % M = i % M := by
        congr 1
        omega
      rw [hslot, getD_set_self _ _ _ _ (by rw [hblen]; exact Nat.mod_lt _ hM)]
      congr 1
      omega
    · have hne : i % M ≠ (i + 1 - M + k) % M := by
        intro heq
        have hle : i + 1 - M + k ≤ i := by omega
        have hmod : (i + 1 - M + k) % M = i % M := heq.symm
        have hdvd : M ∣ i - (i + 1 - M + k) := (Nat.modEq_iff_dvd' hle).mp hmod
        have hpos : 0 < i - (i + 1 - M + k) := by omega
        have := Nat.le_of_dvd hpos hdvd
        omega
      rw [getD_set_ne _ _ _ _ _ hne]
      have heq : i + 1 - M + k = i - M + (k + 1) := by omega
      rw [heq]
      exact ih (by omega) (k + 1) (by omega)

/-! ### Claim C1 -/

lemma processChannel_state_lookaheadBuffers (s : LimiterState) (lb : List ℝ)
    (li f : ℕ) (xs : List ℝ) :
    (processChannel s lb li f xs).state.lookaheadBuffers = s.lookaheadBuffers := by
  induction xs generalizing s lb li f with
  | nil => rfl
  | cons x xs ih =>
    rw [processChannel_cons_state, ih, processSample_lookaheadBuffers]

lemma processChannel_state_lookaheadIndices (s : LimiterState) (lb : List ℝ)
    (li f : ℕ) (xs : List ℝ) :
    (processChannel s lb li f xs).state.lookaheadIndices = s.lookaheadIndices := by
  induction xs generalizing s lb li f with
  | nil => rfl
  | cons x xs ih =>
    rw [processChannel_cons_state, ih, processSample_lookaheadIndices]

lemma processChannel_state_lookaheadFilled (s : LimiterState) (lb : List ℝ)
    (li f : ℕ) (xs : List ℝ) :
    (processChannel s lb li f xs).state.lookaheadFilled = s.lookaheadFilled := by
  induction xs generalizing s lb li f with
  | nil => rfl
  | cons x xs ih =>
    rw [processChannel_cons_state, ih, processSample_lookaheadFilled]

lemma processChannels_cons (s : LimiterState) (output : List (List ℝ)) (ch : ℕ)
    (a : List ℝ) (rest : List (List ℝ)) :
    processChannels s output ch (a :: rest) =
      processChannels (chanStep s ch a) (chanOut s output ch a) (ch + 1) rest := rfl

lemma chanStep_lookaheadBuffers (s : LimiterState) (ch : ℕ) (a : List ℝ) :
    (chanStep s ch a).lookaheadBuffers =
      s.lookaheadBuffers.set ch
        (processChannel s (s.lookaheadBuffers.getD ch [])
          (s.lookaheadIndices.getD ch 0) (s.lookaheadFilled.getD ch 0) a).lb := by
  simp only [chanStep, processChannel_state_lookaheadBuffers]

lemma chanStep_lookaheadIndices (s : LimiterState) (ch : ℕ) (a : List ℝ) :
    (chanStep s ch a).lookaheadIndices =
      s.lookaheadIndices.set ch
        (processChannel s (s.lookaheadBuffers.getD ch [])
          (s.lookaheadIndices.getD ch 0) (s.lookaheadFilled.getD ch 0) a).li := by
  simp only [chanStep, processChannel_state_lookaheadIndices]

lemma chanStep_lookaheadFilled (s : LimiterState) (ch : ℕ) (a : List ℝ) :
    (chanStep s ch a).lookaheadFilled =
      s.lookaheadFilled.set ch
        (processChannel s (s.lookaheadBuffers.getD ch [])
          (s.lookaheadIndices.getD ch 0) (s.lookaheadFilled.getD ch 0) a).filled := by
  simp only [chanStep, processChannel_state_lookaheadFilled]

lemma chanStep_lookaheadSize (s : LimiterState) (ch : ℕ) (a : List ℝ) :
    (chanStep s ch a).lookaheadSize = s.lookaheadSize := by
  simp only [chanStep]
  rw [processChannel_lookaheadSize]

lemma processChannels_arrays_lt (s : LimiterState) (output : List (List ℝ))
    (ch : ℕ) (chans : List (List ℝ)) (c : ℕ) (hc : c < ch) :
    (processChannels s output ch chans).1.lookaheadBuffers.getD c [] =
        s.lookaheadBuffers.getD c [] ∧
    (processChannels s output ch chans).1.lookaheadIndices.getD c 0 =
        s.lookaheadIndices.getD c 0 ∧
    (processChannels s output ch chans).1.lookaheadFilled.getD c 0 =
        s.lookaheadFilled.getD c 0 := by
  induction chans generalizing s output ch with
  | nil => exact ⟨rfl, rfl, rfl⟩
  | cons a rest ih =>
    rw [processChannels_cons]
    have h3 := ih (chanStep s ch a) (chanOut s output ch a) (ch + 1) (by omega)
    refine ⟨?_, ?_, ?_⟩
    · rw [h3.1, chanStep_lookaheadBuffers, getD_set_ne _ _ _ _ _ (by omega)]
    · rw [h3.2.1, chanStep_lookaheadIndices, getD_set_ne _ _ _ _ _ (by omega)]
    · rw [h3.2.2, chanStep_lookaheadFilled, getD_set_ne _ _ _ _ _ (by omega)]

lemma processChannels_locals_at (s : LimiterState) (output : List (List ℝ))
    (ch k : ℕ) (chans : List (List ℝ)) (hk : k < chans.length)
    (hb : ch + k < s.lookaheadBuffers.length)
    (hi : ch + k < s.lookaheadIndices.length)
    (hf : ch + k < s.lookaheadFilled.length) :
    ((processChannels s output ch chans).1.lookaheadBuffers.getD (ch + k) [],
      (processChannels s output ch chans).1.lookaheadIndices.getD (ch + k) 0,
      (processChannels s output ch chans).1.lookaheadFilled.getD (ch + k) 0) =
      localRun s.lookaheadSize
        (s.lookaheadBuffers.getD (ch + k) [], s.lookaheadIndices.getD (ch + k) 0,
          s.lookaheadFilled.getD (ch + k) 0) (chans.getD k []) := by
  induction chans generalizing s output ch k with
  | nil => simp at hk
  | cons a rest ih =>
    rw [processChannels_cons]
    cases k with
    | zero =>
      simp only [Nat.add_zero] at hb hi hf ⊢
      have h3 := processChannels_arrays_lt (chanStep s ch a) (chanOut s output ch a)
        (ch + 1) rest ch (Nat.lt_succ_self ch)
      rw [h3.1, h3.2.1, h3.2.2, chanStep_lookaheadBuffers, chanStep_lookaheadIndices,
        chanStep_lookaheadFilled, getD_set_self _ _ _ _ hb, getD_set_self _ _ _ _ hi,
        getD_set_self _ _ _ _ hf, processChannel_locals]
      rfl
    | succ j =>
      have hrw : ch + (j + 1) = (ch + 1) + j := by omega
      rw [hrw] at hb hi hf ⊢
      have h := ih (chanStep s ch a) (chanOut s output ch a) (ch + 1) j
        (by simpa using hk)
        (by rw [chanStep_lookaheadBuffers, List.length_set]; omega)
        (by rw [chanStep_lookaheadIndices, List.length_set]; omega)
        (by rw [chanStep_lookaheadFilled, List.length_set]; omega)
      rw [h, chanStep_lookaheadSize, chanStep_lookaheadBuffers,
        chanStep_lookaheadIndices, chanStep_lookaheadFilled,
        getD_set_ne _ _ _ _ _ (by omega), getD_set_ne _ _ _ _ _ (by omega),
        getD_set_ne _ _ _ _ _ (by omega)]
      rfl

lemma process_state_cons (s : LimiterState) (input : List (List ℝ))
    (more outputs : List (List (List ℝ))) (h : input.length ≠ 0) :
    (process s (input :: more) outputs).state =
      (processChannels s (outputs.getD 0 []) 0 input).1 := by
  simp only [process, List.head?]
  rw [if_neg h]

/-- Claim C1 (amended): the per-channel lookahead state (delay buffer,
write index, filledCount) of channel `c` depends only on channel `c`'s
own input samples — two `process` calls from the same state whose inputs
agree on channel `c` leave identical lookahead state for channel `c`.
The output samples, however, are not noninterfering, because
`currentGain` and the RMS window state are shared across channels (see
the counterexample). -/
theorem c1_amended (s : LimiterState) (outs1 outs2 : List (List (List ℝ)))
    (inp1 inp2 : List (List ℝ)) (c : ℕ)
    (h1 : c < inp1.length) (h2 : c < inp2.length)
    (heq : inp1.getD c [] = inp2.getD c [])
    (hb : c < s.lookaheadBuffers.length) (hi : c < s.lookaheadIndices.length)
    (hf : c < s.lookaheadFilled.length) :
    ((process s [inp1] outs1).state.lookaheadBuffers.getD c [],
      (process s [inp1] outs1).state.lookaheadIndices.getD c 0,
      (process s [inp1] outs1).state.lookaheadFilled.getD c 0) =
    ((process s [inp2] outs2).state.lookaheadBuffers.getD c [],
      (process s [inp2] outs2).state.lookaheadIndices.getD c 0,
      (process s [inp2] outs2).state.lookaheadFilled.getD c 0) := by
  rw [process_state_cons s inp1 [] outs1 (by omega),
    process_state_cons s inp2 [] outs2 (by omega)]
  have e1 := processChannels_locals_at s (outs1.getD 0 []) 0 c inp1
    (by omega) (by omega) (by omega) (by omega)
  have e2 := processChannels_locals_at s (outs2.getD 0 []) 0 c inp2
    (by omega) (by omega) (by omega) (by omega)
  rw [Nat.zero_add] at e1 e2
  rw [e1, e2, heq]

/-- Witness for C1 (amended): two blocks differing only in channel 0
leave identical channel-1 lookahead state. -/
theorem c1_witness :
    (1 : ℕ) < ([[0], [1/10]] : List (List ℝ)).length ∧
    ([[0], [1/10]] : List (List ℝ)).getD 1 [] =
      ([[1/2], [1/10]] : List (List ℝ)).getD 1 [] ∧
    1 < (initState 200).lookaheadBuffers.length ∧
    ((process (initState 200) [[[0], [1/10]]]
        [[[0], [0]]]).state.lookaheadBuffers.getD 1 [],
      (process (initState 200) [[[0], [1/10]]]
        [[[0], [0]]]).state.lookaheadIndices.getD 1 0,
      (process (initState 200) [[[0], [1/10]]]
        [[[0], [0]]]).state.lookaheadFilled.getD 1 0) =
    ((process (initState 200) [[[1/2], [1/10]]]
        [[[0], [0]]]).state.lookaheadBuffers.getD 1 [],
      (process (initState 200) [[[1/2], [1/10]]]
        [[[0], [0]]]).state.lookaheadIndices.getD 1 0,
      (process (initState 200) [[[1/2], [1/10]]]
        [[[0], [0]]]).state.lookaheadFilled.getD 1 0) :=
  ⟨by norm_num, rfl, by rw [initState_200]; norm_num,
    c1_amended (initState 200) [[[0], [0]]] [[[0], [0]]]
      [[0], [1/10]] [[1/2], [1/10]] 1 (by norm_num) (by norm_num) rfl
      (by rw [initState_200]; norm_num) (by rw [initState_200]; norm_num)
      (by rw [initState_200]; norm_num)⟩

/-- Claim C1 is false as stated for the output samples: at sampleRate
200, the two-channel blocks `[[1/2], [1/10]]` and `[[0], [1/10]]` have
identical channel-1 input, yet produce different channel-1 output —
`currentGain` and the RMS window are shared instance fields, so channel
0's samples change the gain applied to channel 1. -/
theorem c1_counterexample :
    (((process (initState 200) [[[1/2], [1/10]]]
        [[[0], [0]]]).outputs.getD 0 []).getD 1 []).getD 0 0 ≠
    (((process (initState 200) [[[0], [1/10]]]
        [[[0], [0]]]).outputs.getD 0 []).getD 1 []).getD 0 0 := by
  have hA : (((process (initState 200) [[[0], [1/10]]]
      [[[0], [0]]]).outputs.getD 0 []).getD 1 []).getD 0 0 = 1/10 := by
    rw [initState_200]
    simp only [process, processChannels, processChannel, List.head?, List.getD,
      List.length_cons, List.length_nil, List.getElem?_cons_zero,
      List.getElem?_cons_succ, Option.getD_some, List.set, List.take, List.drop,
      List.length_append, List.append_nil, List.nil_append]
    norm_num
    simp only [processSample_out, processSample_currentGain, processSample_threshold,
      processSample_rmsBuffer, processSample_rmsBufferIndex, processSample_rmsSum,
      processSample_rmsWindowSize, processSample_lookaheadSize,
      processSample_attackCoeff, processSample_releaseCoeff, calculateRMS_rms]
    norm_num [dbOfRms_zero, dbOfRms_tenth, sqrt_inv_hundred, sqrt_hundred,
      logb_ten_ten, logb_ten_tenth, targetGainOf, Real.sqrt_zero, List.set, dbOfRms]
  have hB : (((process (initState 200) [[[1/2], [1/10]]]
      [[[0], [0]]]).outputs.getD 0 []).getD 1 []).getD 0 0 < 1/10 := by
    rw [initState_200]
    simp only [process, processChannels, processChannel, List.head?, List.getD,
      List.length_cons, List.length_nil, List.getElem?_cons_zero,
      List.getElem?_cons_succ, Option.getD_some, List.set, List.take, List.drop,
      List.length_append, List.append_nil, List.nil_append]
    norm_num
    simp only [processSample_out, processSample_currentGain, processSample_threshold,
      processSample_rmsBuffer, processSample_rmsBufferIndex, processSample_rmsSum,
      processSample_rmsWindowSize, processSample_lookaheadSize,
      processSample_attackCoeff, processSample_releaseCoeff, calculateRMS_rms]
    norm_num [dbOfRms_zero, dbOfRms_tenth, sqrt_inv_hundred, sqrt_hundred,
      logb_ten_ten, logb_ten_tenth, targetGainOf, Real.sqrt_zero, List.set, dbOfRms,
      sqrt_inv_four]
    have hsq4 : Real.sqrt (4 : ℝ) = 2 := by
      rw [show (4 : ℝ) = 2 ^ 2 by norm_num]
      exact Real.sqrt_sq (by norm_num)
    rw [hsq4]
    have hL : Real.logb 10 (2 : ℝ) < 1 :=
      (Real.logb_lt_iff_lt_rpow (by norm_num) (by norm_num)).mpr
        (by rw [Real.rpow_one]; norm_num)
    rw [if_pos hL]
    have hT1 : (10 : ℝ) ^ ((-20 + 20 * Real.logb 10 (2 : ℝ)) / 20) < 1 :=
      Real.rpow_lt_one_of_one_lt_of_neg (by norm_num)
        (by apply div_neg_of_neg_of_pos <;> [linarith; norm_num])
    rw [if_pos hT1]
    have hexp3u : Real.exp (-(1/3 : ℝ)) < 1 := Real.exp_lt_one_iff.mpr (by norm_num)
    have hexp16 : 0 < Real.exp (-(1/16 : ℝ)) := Real.exp_pos _
    rw [if_neg (by nlinarith [mul_pos (sub_pos.mpr hT1) (sub_pos.mpr hexp3u)])]
    nlinarith [mul_pos (mul_pos (sub_pos.mpr hT1) (sub_pos.mpr hexp3u)) hexp16]
  rw [hA]
  exact ne_of_lt hB

/-! ### Claim C2 -/

/-- Claim C2 (amended): once a channel's lookahead buffer is full, the
output at sample index `i` is `inputSample[i - (M - 1)] * currentGain[i]`
(equivalently `inputSample[i + 1 - M]`): the effective delay is `M - 1`
samples, not `M`, because the incoming sample overwrites the oldest slot
before the read at `(writeIndex + 1) % M`.  `currentGain[i]` is the
smoothed gain after processing input sample `i`.  Stated for a channel
processed from a fresh (all-zero) lookahead state, for any shared state
`s`, which covers every channel of the sequential channel loop. -/
theorem c2_amended (s : LimiterState) (xs : List ℝ) (i : ℕ)
    (hM : 0 < s.lookaheadSize) (hfull : s.lookaheadSize ≤ i)
    (hlen : i < xs.length) :
    (processChannel s (List.replicate s.lookaheadSize 0) 0 0 xs).outs.getD i 0 =
      xs.getD (i + 1 - s.lookaheadSize) 0 *
        (processChannel s (List.replicate s.lookaheadSize 0) 0 0
          (xs.take (i + 1))).state.currentGain := by
  set M := s.lookaheadSize with hMdef
  rw [processChannel_getD_out _ _ _ _ _ _ hlen]
  rw [processChannel_take_succ_state s (List.replicate M 0) 0 0 xs i hlen]
  have hloc := processChannel_locals s (List.replicate M 0) 0 0 (xs.take i)
  have hlb : (processChannel s (List.replicate M 0) 0 0 (xs.take i)).lb =
      (localRun M (List.replicate M 0, 0, 0) (xs.take i)).1 :=
    congrArg Prod.fst hloc
  have hli2 : (processChannel s (List.replicate M 0) 0 0 (xs.take i)).li =
      (localRun M (List.replicate M 0, 0, 0) (xs.take i)).2.1 :=
    congrArg (fun p => p.2.1) hloc
  have hfil2 : (processChannel s (List.replicate M 0) 0 0 (xs.take i)).filled =
      (localRun M (List.replicate M 0, 0, 0) (xs.take i)).2.2 :=
    congrArg (fun p => p.2.2) hloc
  have hidx : (localRun M (List.replicate M 0, 0, 0) (xs.take i)).2.1 = i % M := by
    rw [(localRun_fresh_idx M _ _).1, List.length_take, min_eq_left (le_of_lt hlen)]
  have hliv : (processChannel s (List.replicate M 0) 0 0 (xs.take i)).li = i % M := by
    rw [hli2, hidx]
  have hfilv : (processChannel s (List.replicate M 0) 0 0 (xs.take i)).filled = M := by
    rw [hfil2, (localRun_fresh_idx M _ _).2, List.length_take,
      min_eq_left (le_of_lt hlen), min_eq_right hfull]
  have hsize : (processChannel s (List.replicate M 0) 0 0 (xs.take i)).state.lookaheadSize = M :=
    processChannel_lookaheadSize s _ 0 0 _
  rw [processSample_out_full _ _ _ _ _ (by rw [hfilv, hsize]; exact lt_irrefl M)]
  rw [hsize, hliv, hlb]
  congr 1
  have hbuf : ((localRun M (List.replicate M 0, 0, 0) (xs.take i)).1.set (i % M)
      (xs.getD i 0)) = (localRun M (List.replicate M 0, 0, 0) (xs.take (i + 1))).1 := by
    rw [take_succ_getD xs i hlen, localRun_append]
    show _ = (localStep M (localRun M (List.replicate M 0, 0, 0) (xs.take i))
      (xs.getD i 0)).1
    simp only [localStep, hidx]
  rw [hbuf]
  have hslot : (i % M + 1) % M = (i + 1 - M) % M := by
    rw [Nat.mod_add_mod, Nat.mod_eq_sub_mod (by omega : M ≤ i + 1)]
  have hsteady := localRun_take_steady M hM xs (i + 1) (by omega) (by omega) 0 hM
  simp only [Nat.add_zero] at hsteady
  rw [hslot, hsteady]

/-- Claim C2 is false as stated: at sampleRate 200 (M = 2) with input
`[1/10, 0, 0]`, the first steady-state output (index 2) is 0 — the
sample delayed by M - 1 = 1 — whereas the claimed formula
`inputSample[i - M] * currentGain[i]` gives `1/10 * gain > 0` (the
sample `1/10` at index 0 has already been overwritten before the read). -/
theorem c2_counterexample :
    (processChannel (initState 200)
        (List.replicate (initState 200).lookaheadSize 0) 0 0
        ([1/10, 0, 0] : List ℝ)).outs.getD 2 0 ≠
      ([1/10, 0, 0] : List ℝ).getD (2 - (initState 200).lookaheadSize) 0 *
        (processChannel (initState 200)
          (List.replicate (initState 200).lookaheadSize 0) 0 0
          (([1/10, 0, 0] : List ℝ).take (2 + 1))).state.currentGain := by
  have hM : (initState 200).lookaheadSize = 2 := by rw [initState_200]
  rw [hM]
  have h1 : (processChannel (initState 200) (List.replicate 2 0) 0 0
      ([1/10, 0, 0] : List ℝ)).outs.getD 2 0 = 0 := by
    rw [processChannel_getD_out _ _ _ _ _ 2 (by norm_num)]
    have hpre := processChannel_locals (initState 200)
      (List.replicate 2 0) 0 0 (([1/10, 0, 0] : List ℝ).take 2)
    rw [hM] at hpre
    have hlb := congrArg Prod.fst hpre
    have hli := congrArg (fun p => p.2.1) hpre
    have hfil := congrArg (fun p => p.2.2) hpre
    simp only at hlb hli hfil
    have hloc : localRun 2 (List.replicate 2 0, 0, 0)
        (([1/10, 0, 0] : List ℝ).take 2) = ([1/10, 0], 0, 2) := by
      norm_num [localRun, localStep, List.replicate, List.set]
    rw [hloc] at hlb hli hfil
    rw [processSample_out_full _ _ _ _ _
      (by rw [hfil, processChannel_lookaheadSize, hM]; simp)]
    rw [processChannel_lookaheadSize, hM, hlb, hli, hfil]
    norm_num [List.set]
  have h2 : ([1/10, 0, 0] : List ℝ).getD (2 - 2) 0 = 1/10 := by norm_num
  have h3 : 0 < (processChannel (initState 200) (List.replicate 2 0) 0 0
      (([1/10, 0, 0] : List ℝ).take (2 + 1))).state.currentGain :=
    (gainInv_processChannel _ _ _ _ _ (gainInv_initState 200 (by norm_num))).1
  rw [h1, h2]
  exact Ne.symm (ne_of_gt (mul_pos (by norm_num) h3))

/-- Witness for C2 (amended) at sampleRate 200 (M = 2), three zero
samples, output index 2. -/
theorem c2_witness :
    0 < (initState 200).lookaheadSize ∧ (initState 200).lookaheadSize ≤ 2 ∧
    2 < ([0, 0, 0] : List ℝ).length ∧
    (processChannel (initState 200)
        (List.replicate (initState 200).lookaheadSize 0) 0 0
        [0, 0, 0]).outs.getD 2 0 =
      ([0, 0, 0] : List ℝ).getD (2 + 1 - (initState 200).lookaheadSize) 0 *
        (processChannel (initState 200)
          (List.replicate (initState 200).lookaheadSize 0) 0 0
          (([0, 0, 0] : List ℝ).take (2 + 1))).state.currentGain :=
  ⟨by rw [initState_200]; norm_num, by rw [initState_200], by norm_num,
    c2_amended (initState 200) [0, 0, 0] 2 (by rw [initState_200]; norm_num)
      (by rw [initState_200]) (by norm_num)⟩

/-! ### Claim C9 -/

lemma sumSquares_cons (x : ℝ) (l : List ℝ) :
    sumSquares (x :: l) = x * x + sumSquares l := by
  simp [sumSquares]

lemma sumSquares_replicate_zero (n : ℕ) :
    sumSquares (List.replicate n (0 : ℝ)) = 0 := by
  induction n with
  | zero => simp [sumSquares]
  | succ k ih => simpa [List.replicate_succ, sumSquares_cons] using ih

lemma sumSquares_set (l : List ℝ) (i : ℕ) (x : ℝ) (h : i < l.length) :
    sumSquares (l.set i x) = sumSquares l - l.getD i 0 * l.getD i 0 + x * x := by
  induction l generalizing i with
  | nil => simp at h
  | cons a l ih =>
    cases i with
    | zero =>
      simp only [List.set, sumSquares_cons, List.getD_cons_zero]
      ring
    | succ n =>
      have hn : n < l.length := by simpa using h
      simp only [List.set, sumSquares_cons, List.getD_cons_succ]
      rw [ih n hn]
      ring

lemma rmsInv_calculateRMS (s : LimiterState) (x : ℝ) (h : rmsInv s) :
    rmsInv (calculateRMS s x).state := by
  obtain ⟨hsum, hlen, hidx⟩ := h
  have hW : 0 < s.rmsWindowSize := lt_of_le_of_lt (Nat.zero_le _) hidx
  refine ⟨?_, ?_, ?_⟩
  · simp only [calculateRMS]
    rw [sumSquares_set _ _ _ (by rw [hlen]; exact hidx), hsum]
  · simp [calculateRMS, hlen]
  · simpa only [calculateRMS] using Nat.mod_lt _ hW

lemma rmsInv_runRMS (s : LimiterState) (xs : List ℝ) (h : rmsInv s) :
    rmsInv (runRMS s xs) := by
  induction xs generalizing s with
  | nil => exact h
  | cons x xs ih =>
    simpa [runRMS, List.foldl_cons] using ih _ (rmsInv_calculateRMS s x h)

/-- Claim C9: starting from the initial all-zero RMS state, after every
sequence of per-sample RMS updates the running sum `rmsSum` equals the
sum of the squares of the RMS ring buffer's current contents. -/
theorem c9_rms_sum_consistent (sampleRate : ℝ) (xs : List ℝ)
    (h : 0 < (initState sampleRate).rmsWindowSize) :
    (runRMS (initState sampleRate) xs).rmsSum =
      sumSquares (runRMS (initState sampleRate) xs).rmsBuffer := by
  have h0 : rmsInv (initState sampleRate) :=
    ⟨(sumSquares_replicate_zero _).symm, by simp [initState],
      by simpa [initState] using h⟩
  exact (rmsInv_runRMS _ xs h0).1

/-- Witness for C9 at sampleRate 200 with a single sample. -/
theorem c9_witness :
    0 < (initState 200).rmsWindowSize ∧
    (runRMS (initState 200) [1]).rmsSum =
      sumSquares (runRMS (initState 200) [1]).rmsBuffer :=
  ⟨by rw [initState_200]; norm_num,
    c9_rms_sum_consistent 200 [1] (by rw [initState_200]; norm_num)⟩

end LimiterWorklet

end
